import Mathlib

/-!
Verification of the Hypnosis fact store (src/hypnosis/core.py and
src/hypnosis/stores.py): a shallow embedding of the data model, the JSONL
storage backend and the facade operations, together with theorems settling
the specification claims.

Modelling conventions:
* Python floats are modelled as rationals; all operations the code performs
  on priorities (clamping, comparison, sorting keys) are exact on rationals.
* A JSON value is the inductive `Json`; `json.loads` applied to one text
  line is abstracted by the `Line` type: a line is blank, fails to decode,
  or decodes to a `Json` value.  Lines are parsed independently by the
  source, so this abstraction is faithful.
* Python raises that matter to the code are `PyErr` values threaded through
  `Except`; `read_all` catches `JSONDecodeError` and `KeyError` only, so
  those are absorbed while `TypeError` propagates.
* Python dataclasses are untyped at runtime: `HypnotizedFact.from_dict`
  stores whatever JSON value sits in each field.  The parsed-record type
  `HypnotizedFactJ` therefore carries `Json` fields; a well-typed record
  (`HypnotizedFact`, following the dataclass annotations) embeds into it
  via `HypnotizedFact.toFactJ`.
-/

/-- JSON values, the image of Python's json.loads. -/
inductive Json where
  | null : Json
  | bool (b : Bool) : Json
  | num (q : ℚ) : Json
  | str (s : String) : Json
  | arr (elems : List Json) : Json
  | obj (kvs : List (String × Json)) : Json

/-- Python dict lookup for an object decoded by json.loads: with duplicate
keys the last binding wins, matching dict insertion semantics. -/
def pyGet (kvs : List (String × Json)) (k : String) : Option Json :=
  kvs.reverse.lookup k

/-- Python equality test between an arbitrary value and a str: only a str
with the same characters compares equal. -/
def jsonEqStr : Json → String → Bool
  | .str s, t => s == t
  | _, _ => false

/-- Python lowercasing of one character, as str.lower acts on ASCII. -/
def lowerChar (c : Char) : Char :=
  if 'A' ≤ c ∧ c ≤ 'Z' then Char.ofNat (c.toNat + 32) else c

/-- Model of Python str.lower. -/
def pyLower (s : String) : String := ⟨s.data.map lowerChar⟩

/-- Model of Python str.strip (leading and trailing whitespace removed). -/
def pyStrip (s : String) : String := s.trim

/-- Model of the Python substring test needle in hay. -/
def pyIn (needle hay : String) : Bool :=
  hay.data.tails.any (fun suf => needle.data.isPrefixOf suf)

/-- Tier table PRIORITY_LEVELS from core.py lines 10-15. -/
def PRIORITY_LEVELS : List (String × ℚ) :=
  [("critical", 99/100), ("high", 95/100), ("medium", 85/100), ("low", 75/100)]

/-- Record type HypnotizedFact from core.py lines 18-27, following the dataclass field
annotations (id/fact/created_at strings, priority float, optional category,
metadata dict).  id and created_at are generated at creation time; the
embedding passes them in explicitly where a fact is built. -/
structure HypnotizedFact where
  id : String
  fact : String
  priority : ℚ
  category : Option String
  metadata : List (String × Json)
  created_at : String

/-- Category field as serialized by to_dict: None becomes JSON null. -/
def jsonOfCat : Option String → Json
  | none => Json.null
  | some s => Json.str s

/-- Serialization method to_dict from core.py lines 29-37. -/
def HypnotizedFact.to_dict (f : HypnotizedFact) : Json :=
  Json.obj [("id", Json.str f.id), ("fact", Json.str f.fact),
    ("priority", Json.num f.priority), ("category", jsonOfCat f.category),
    ("metadata", Json.obj f.metadata), ("created_at", Json.str f.created_at)]

/-- Python exceptions relevant to the store: KeyError (raised by a missing
required field and caught by read_all) and TypeError (raised by indexing a
non-dict with a string key, caught nowhere). -/
inductive PyErr where
  | keyError : PyErr
  | typeError : PyErr
deriving DecidableEq

/-- Record as actually produced by HypnotizedFact.from_dict at runtime: the
Python dataclass performs no type checking, so each field holds whatever
JSON value the stored object supplied.  category/metadata hold JSON null
for Python None. -/
structure HypnotizedFactJ where
  id : Json
  fact : Json
  priority : Json
  category : Json
  metadata : Json
  created_at : Json

/-- Embedding of a well-typed record into the runtime record shape. -/
def HypnotizedFact.toFactJ (f : HypnotizedFact) : HypnotizedFactJ :=
  ⟨Json.str f.id, Json.str f.fact, Json.num f.priority,
    jsonOfCat f.category, Json.obj f.metadata, Json.str f.created_at⟩

/-- Required-field access data[k]: KeyError when missing (from_dict lines
42-44 index id, fact and priority directly). -/
def reqField (kvs : List (String × Json)) (k : String) :
    Except PyErr Json :=
  match pyGet kvs k with
  | some v => Except.ok v
  | none => Except.error PyErr.keyError

/-- Parsing method from_dict from core.py lines 39-48.  Here `now` is the
timestamp datetime.utcnow would produce for a missing created_at.  Indexing
a decoded value that is not an object raises TypeError in Python; from_dict
does not catch it. -/
def HypnotizedFact.from_dict (now : String) :
    Json → Except PyErr HypnotizedFactJ
  | .obj kvs => do
      let i ← reqField kvs "id"
      let fa ← reqField kvs "fact"
      let p ← reqField kvs "priority"
      Except.ok ⟨i, fa, p, (pyGet kvs "category").getD Json.null,
        (pyGet kvs "metadata").getD (Json.obj []),
        (pyGet kvs "created_at").getD (Json.str now)⟩
  | _ => Except.error PyErr.typeError

/-- Runtime serialization: the to_dict method applied to a runtime record
(used when delete re-serializes surviving records). -/
def HypnotizedFactJ.to_dict (f : HypnotizedFactJ) : Json :=
  Json.obj [("id", f.id), ("fact", f.fact), ("priority", f.priority),
    ("category", f.category), ("metadata", f.metadata),
    ("created_at", f.created_at)]

/-- One text line of the storage file, abstracted through json.loads: the
line is whitespace-only, fails to decode (JSONDecodeError), or decodes to a
JSON value.  read_all treats lines independently, so this is a faithful
view of the file for parsing purposes. -/
inductive Line where
  | blank : Line
  | invalid : Line
  | json (j : Json) : Line

namespace JSONLMemoryStore

/-- Backend read_all from stores.py lines 30-47: skip blank lines,
skip lines raising JSONDecodeError or KeyError, accumulate parsed records
in file order; any other exception (TypeError from a decoded non-object)
propagates. -/
def read_all (now : String) : List Line → Except PyErr (List HypnotizedFactJ)
  | [] => Except.ok []
  | Line.blank :: rest => read_all now rest
  | Line.invalid :: rest => read_all now rest
  | Line.json j :: rest =>
      match HypnotizedFact.from_dict now j with
      | Except.ok f => (read_all now rest).map (fun fs => f :: fs)
      | Except.error PyErr.keyError => read_all now rest
      | Except.error PyErr.typeError => Except.error PyErr.typeError

/-- Backend write from stores.py lines 25-28, at the line level:
append one serialized record line to the file. -/
def write (file : List Line) (fact : HypnotizedFact) : List Line :=
  file ++ [Line.json fact.to_dict]

/-- Backend delete from stores.py lines 49-64: read all valid
records, drop those whose id equals fact_id, return False leaving the file
untouched when nothing was dropped, otherwise rewrite the file with the
surviving records re-serialized in order and return True. -/
def delete (now : String) (file : List Line) (fact_id : String) :
    Except PyErr (Bool × List Line) :=
  match read_all now file with
  | Except.error e => Except.error e
  | Except.ok facts =>
      let remaining := facts.filter (fun f => !(jsonEqStr f.id fact_id))
      if remaining.length = facts.length then
        Except.ok (false, file)
      else
        Except.ok (true, remaining.map (fun f => Line.json f.to_dict))

end JSONLMemoryStore

/-- Decimal digit character. -/
def digitCh (n : Nat) : Char :=
  match n with
  | 0 => '0' | 1 => '1' | 2 => '2' | 3 => '3' | 4 => '4'
  | 5 => '5' | 6 => '6' | 7 => '7' | 8 => '8' | 9 => '9'
  | _ => '0'

/-- Hexadecimal digit character (for control-character escapes). -/
def hexCh (n : Nat) : Char :=
  match n with
  | 0 => '0' | 1 => '1' | 2 => '2' | 3 => '3' | 4 => '4'
  | 5 => '5' | 6 => '6' | 7 => '7' | 8 => '8' | 9 => '9'
  | 10 => 'a' | 11 => 'b' | 12 => 'c' | 13 => 'd' | 14 => 'e' | 15 => 'f'
  | _ => '0'

/-- Decimal digits of a natural number. -/
def natChars (n : Nat) : List Char :=
  if n < 10 then [digitCh n]
  else natChars (n / 10) ++ [digitCh (n % 10)]
decreasing_by exact Nat.div_lt_self (by omega) (by omega)

/-- Textual form of a rational number.  Python prints floats in decimal;
the embedding abstracts the exact digits and only relies on the output
being sign, digit and slash characters (in particular newline-free). -/
def numRepr (q : ℚ) : List Char :=
  (if q.num < 0 then ['-'] else []) ++ natChars q.num.natAbs ++
    (if q.den = 1 then [] else '/' :: natChars q.den)

/-- Escape of one character inside a JSON string, as json.dumps emits it
with ensure_ascii=False: quote, backslash and control characters are
escaped, everything else is kept verbatim. -/
def escapeChar (c : Char) : List Char :=
  if c = '"' then ['\\', '"']
  else if c = '\\' then ['\\', '\\']
  else if c = '\n' then ['\\', 'n']
  else if c = '\r' then ['\\', 'r']
  else if c = '\t' then ['\\', 't']
  else if c.toNat < 32 then
    ['\\', 'u', '0', '0', hexCh (c.toNat / 16), hexCh (c.toNat % 16)]
  else [c]

/-- Serialized JSON string literal. -/
def strChars (s : String) : List Char :=
  '"' :: s.data.flatMap escapeChar ++ ['"']

/-- Comma-space separated concatenation, as json.dumps default separators. -/
def joinComma : List (List Char) → List Char
  | [] => []
  | [x] => x
  | x :: xs => x ++ ',' :: ' ' :: joinComma xs

/-- Characters emitted by json.dumps(v, ensure_ascii=False) for a JSON
value v. -/
def dumpsChars : Json → List Char
  | .null => "null".data
  | .bool true => "true".data
  | .bool false => "false".data
  | .num q => numRepr q
  | .str s => strChars s
  | .arr elems =>
      '[' :: joinComma (elems.attach.map (fun x => dumpsChars x.1)) ++ [']']
  | .obj kvs =>
      '\x7b' :: joinComma (kvs.attach.map
        (fun x => strChars x.1.1 ++ ':' :: ' ' :: dumpsChars x.1.2)) ++ ['\x7d']
decreasing_by
  all_goals simp_wf
  · have h := List.sizeOf_lt_of_mem x.2
    omega
  · have h := List.sizeOf_lt_of_mem x.2
    obtain ⟨⟨a, b⟩, hx⟩ := x
    simp at h ⊢
    omega

/-- Backend write from stores.py lines 25-28 at the text level:
open in append mode and write json.dumps(fact.to_dict()) plus a newline
after the existing content. -/
def JSONLMemoryStore.writeText (content : String) (fact : HypnotizedFact) :
    String :=
  content ++ ⟨dumpsChars fact.to_dict⟩ ++ "\n"

/-- Insertion step of a stable sort: a newly considered element is placed
after every earlier element b with keepBefore b a, and before the rest.
Python's list.sort key/reverse sorting is stable; any stable sort is
determined up to equality by the three properties proved below, so this
implementation is a faithful model of it. -/
def stableInsert (keepBefore : α → α → Bool) (a : α) : List α → List α
  | [] => [a]
  | b :: bs =>
      if keepBefore b a then b :: stableInsert keepBefore a bs
      else a :: b :: bs

/-- Stable sort placing b before a whenever keepBefore b a. -/
def stableSort (keepBefore : α → α → Bool) : List α → List α
  | [] => []
  | x :: xs => stableInsert keepBefore x (stableSort keepBefore xs)

/-- Comparator of list.sort(key=lambda f: f.priority, reverse=True): an
earlier element stays before a later one unless its priority is strictly
smaller. -/
def priorityDescKeep (b a : HypnotizedFact) : Bool :=
  decide (a.priority < b.priority)

namespace Hypnotizer

/-- Priority normalization in inject, core.py lines 105-108:
a string is lowercased and looked up in PRIORITY_LEVELS with the
configured default as fallback; a number is clamped to the unit interval. -/
def normalizePriority (default_priority : ℚ) : String ⊕ ℚ → ℚ
  | Sum.inl s => ((PRIORITY_LEVELS.lookup (pyLower s)).getD default_priority)
  | Sum.inr x => max 0 (min 1 x)

/-- Facade inject, core.py lines 87-119, restricted to the record it
constructs and returns; newId and created_at stand for the uuid4 and
utcnow values generated there, and inject also passes the record to the
backend's write (modelled by composing with write where a claim needs
it). -/
def inject (default_priority : ℚ) (newId created_at : String)
    (fact : String) (priority : String ⊕ ℚ) (category : Option String)
    (metadata : Option (List (String × Json))) : HypnotizedFact :=
  { id := newId
    fact := pyStrip fact
    priority := normalizePriority default_priority priority
    category := category
    metadata := metadata.getD []
    created_at := created_at }

/-- Facade recall, core.py lines 121-152, over the snapshot the backend
returned: the three conditional filters applied in source order, then the
stable descending sort by priority.  The source name recall is a reserved
word in this development's ambient library, hence the quoted identifier. -/
def «recall» (query category : Option String) (min_priority : ℚ)
    (snapshot : List HypnotizedFact) : List HypnotizedFact :=
  let facts := snapshot
  let facts :=
    match category with
    | some c => facts.filter (fun f => f.category == some c)
    | none => facts
  let facts :=
    if 0 < min_priority then
      facts.filter (fun f => decide (min_priority ≤ f.priority))
    else facts
  let facts :=
    match query with
    | some q => facts.filter (fun f => pyIn (pyLower q) (pyLower f.fact))
    | none => facts
  stableSort priorityDescKeep facts

/-- Comparator used by sorted on strings: ascending lexicographic order. -/
def strAscKeep (b a : String) : Bool := decide (b < a)

/-- Facade list_categories, core.py lines 165-169: the distinct
non-None categories of the snapshot (a Python set), returned sorted
ascending.  sorted applied to a set yields the ascending duplicate-free
enumeration, which dedup followed by a sort produces for any iteration
order of the set. -/
def list_categories (snapshot : List HypnotizedFact) : List String :=
  stableSort strAscKeep ((snapshot.filterMap (fun f => f.category)).dedup)

end Hypnotizer

/-- Filter stage 1 of the recall contract: exact category equality when a
category is provided. -/
def stepCategory (category : Option String) (facts : List HypnotizedFact) :
    List HypnotizedFact :=
  match category with
  | some c => facts.filter (fun f => f.category == some c)
  | none => facts

/-- Filter stage 2 of the recall contract: priority at least min_priority,
applied only when min_priority is positive. -/
def stepMinPriority (min_priority : ℚ) (facts : List HypnotizedFact) :
    List HypnotizedFact :=
  if 0 < min_priority then
    facts.filter (fun f => decide (min_priority ≤ f.priority))
  else facts

/-- Filter stage 3 of the recall contract: case-insensitive substring match
of the query against the fact text when a query is provided. -/
def stepQuery (query : Option String) (facts : List HypnotizedFact) :
    List HypnotizedFact :=
  match query with
  | some q => facts.filter (fun f => pyIn (pyLower q) (pyLower f.fact))
  | none => facts

/-- Concrete well-formed stored line used as evidence input. -/
def sampleDict : Json :=
  Json.obj [("id", Json.str "a1"), ("fact", Json.str "keep"),
    ("priority", Json.num 1)]

/-- Record that sampleDict parses to (created_at defaulted to "T"). -/
def sampleRec : HypnotizedFactJ :=
  ⟨Json.str "a1", Json.str "keep", Json.num 1, Json.null, Json.obj [],
    Json.str "T"⟩


section StableSortLemmas

variable {α : Type*} {β : Type*}

theorem stableInsert_perm (k : α → α → Bool) (a : α) (l : List α) :
    (stableInsert k a l).Perm (a :: l) := by
  induction l with
  | nil => simp [stableInsert]
  | cons b bs ih =>
      by_cases h : k b a = true
      · simp only [stableInsert, if_pos h]
        exact (ih.cons b).trans (List.Perm.swap a b bs)
      · simp only [stableInsert, if_neg h]
        exact List.Perm.refl _

theorem stableSort_perm (k : α → α → Bool) (l : List α) :
    (stableSort k l).Perm l := by
  induction l with
  | nil => simp [stableSort]
  | cons x xs ih =>
      exact ((stableInsert_perm k x (stableSort k xs)).trans (ih.cons x))

theorem mem_stableInsert (k : α → α → Bool) (a x : α) (l : List α) :
    x ∈ stableInsert k a l ↔ x = a ∨ x ∈ l := by
  rw [(stableInsert_perm k a l).mem_iff, List.mem_cons]

theorem stableInsert_pairwise (k : α → α → Bool) (R : α → α → Prop)
    (h1 : ∀ a b, k b a = true → R b a)
    (h2 : ∀ a b, k b a = false → R a b)
    (htr : ∀ a b c, R a b → R b c → R a c)
    (a : α) (l : List α) (hl : List.Pairwise R l) :
    List.Pairwise R (stableInsert k a l) := by
  induction l with
  | nil => simp [stableInsert]
  | cons b bs ih =>
      rw [List.pairwise_cons] at hl
      by_cases h : k b a = true
      · simp only [stableInsert, if_pos h, List.pairwise_cons]
        refine ⟨fun x hx => ?_, ih hl.2⟩
        rcases (mem_stableInsert k a x bs).mp hx with hxa | hx
        · rw [hxa]; exact h1 a b h
        · exact hl.1 x hx
      · simp only [stableInsert, if_neg h, List.pairwise_cons]
        have hab : R a b := h2 a b (by simpa using h)
        refine ⟨fun x hx => ?_, hl.1, hl.2⟩
        rcases List.mem_cons.mp hx with hxb | hx
        · rw [hxb]; exact hab
        · exact htr a b x hab (hl.1 x hx)

theorem stableSort_pairwise (k : α → α → Bool) (R : α → α → Prop)
    (h1 : ∀ a b, k b a = true → R b a)
    (h2 : ∀ a b, k b a = false → R a b)
    (htr : ∀ a b c, R a b → R b c → R a c)
    (l : List α) : List.Pairwise R (stableSort k l) := by
  induction l with
  | nil => simp [stableSort]
  | cons x xs ih => exact stableInsert_pairwise k R h1 h2 htr x _ ih

theorem stableInsert_filter_key [DecidableEq β] (k : α → α → Bool)
    (key : α → β) (a : α) (hk : ∀ b, k b a = true → key b ≠ key a)
    (l : List α) (p : β) :
    (stableInsert k a l).filter (fun x => decide (key x = p)) =
      (a :: l).filter (fun x => decide (key x = p)) := by
  induction l with
  | nil => simp [stableInsert]
  | cons b bs ih =>
      by_cases h : k b a = true
      · have hne : key b ≠ key a := hk b h
        simp only [stableInsert, if_pos h]
        by_cases hap : key a = p
        · have hbp : ¬ (key b = p) := fun hbp => hne (hbp.trans hap.symm)
          simp [List.filter_cons, hap, hbp, ih]
        · by_cases hbp : key b = p <;> simp [List.filter_cons, hap, hbp, ih]
      · simp only [stableInsert, if_neg h]

theorem stableSort_filter_key [DecidableEq β] (k : α → α → Bool)
    (key : α → β) (hk : ∀ a b, k b a = true → key b ≠ key a)
    (l : List α) (p : β) :
    (stableSort k l).filter (fun x => decide (key x = p)) =
      l.filter (fun x => decide (key x = p)) := by
  induction l with
  | nil => simp [stableSort]
  | cons x xs ih =>
      have h := stableInsert_filter_key k key x (fun b hb => hk x b hb)
        (stableSort k xs) p
      simp only [stableSort, h, List.filter_cons]
      rw [ih]

end StableSortLemmas

section StoreLemmas

theorem from_dict_to_dict (now : String) (f : HypnotizedFact) :
    HypnotizedFact.from_dict now f.to_dict = Except.ok f.toFactJ := rfl

theorem from_dict_to_dictJ (now : String) (g : HypnotizedFactJ) :
    HypnotizedFact.from_dict now g.to_dict = Except.ok g := rfl

theorem read_all_append (now : String) (xs ys : List Line) :
    JSONLMemoryStore.read_all now (xs ++ ys) =
      match JSONLMemoryStore.read_all now xs with
      | Except.ok a =>
          (JSONLMemoryStore.read_all now ys).map (fun b => a ++ b)
      | Except.error e => Except.error e := by
  induction xs with
  | nil =>
      cases h : JSONLMemoryStore.read_all now ys <;>
        simp [JSONLMemoryStore.read_all, h, Except.map]
  | cons x xs ih =>
      cases x with
      | blank => simpa [JSONLMemoryStore.read_all] using ih
      | invalid => simpa [JSONLMemoryStore.read_all] using ih
      | json j =>
          cases hfd : HypnotizedFact.from_dict now j with
          | ok f =>
              cases hxs : JSONLMemoryStore.read_all now xs with
              | ok a =>
                  cases hys : JSONLMemoryStore.read_all now ys <;>
                    simp [JSONLMemoryStore.read_all, hfd, ih, hxs, hys,
                      Except.map]
              | error e =>
                  simp [JSONLMemoryStore.read_all, hfd, ih, hxs, Except.map]
          | error e =>
              cases e with
              | keyError =>
                  cases hxs : JSONLMemoryStore.read_all now xs <;>
                    simp [JSONLMemoryStore.read_all, hfd, ih, hxs]
              | typeError => simp [JSONLMemoryStore.read_all, hfd]

theorem read_all_recordsJ (now : String) (l : List HypnotizedFactJ) :
    JSONLMemoryStore.read_all now
      (l.map (fun g => Line.json g.to_dict)) = Except.ok l := by
  induction l with
  | nil => rfl
  | cons g gs ih =>
      simp [JSONLMemoryStore.read_all, from_dict_to_dictJ, ih, Except.map]

theorem read_all_records (now : String) (l : List HypnotizedFact) :
    JSONLMemoryStore.read_all now
      (l.map (fun f => Line.json f.to_dict)) =
      Except.ok (l.map HypnotizedFact.toFactJ) := by
  induction l with
  | nil => rfl
  | cons f fs ih =>
      simp [JSONLMemoryStore.read_all, from_dict_to_dict, ih, Except.map]

theorem foldl_write (file : List Line) (facts : List HypnotizedFact) :
    facts.foldl JSONLMemoryStore.write file =
      file ++ facts.map (fun f => Line.json f.to_dict) := by
  induction facts generalizing file with
  | nil => simp
  | cons f fs ih =>
      simp [List.foldl_cons, ih, JSONLMemoryStore.write]

end StoreLemmas

section NewlineFree

theorem digitCh_ne (n : Nat) : digitCh n ≠ '\n' := by
  unfold digitCh
  split <;> decide

theorem hexCh_ne (n : Nat) : hexCh n ≠ '\n' := by
  unfold hexCh
  split <;> decide

theorem natChars_noNL (n : Nat) : '\n' ∉ natChars n := by
  induction n using Nat.strong_induction_on with
  | _ n ih =>
      rw [natChars]
      by_cases h : n < 10
      · simpa [h] using (digitCh_ne n).symm
      · have hlt : n / 10 < n := Nat.div_lt_self (by omega) (by omega)
        simp only [h, if_false, List.mem_append, List.mem_singleton]
        push_neg
        exact ⟨ih _ hlt, (digitCh_ne (n % 10)).symm⟩

theorem numRepr_noNL (q : ℚ) : '\n' ∉ numRepr q := by
  unfold numRepr
  simp only [List.mem_append, List.mem_cons]
  push_neg
  refine ⟨⟨?_, natChars_noNL _⟩, ?_⟩
  · split <;> simp
  · split
    · simp
    · simp only [List.mem_cons]
      push_neg
      exact ⟨by decide, natChars_noNL _⟩

theorem escapeChar_noNL (c : Char) : '\n' ∉ escapeChar c := by
  unfold escapeChar
  repeat' split
  · decide
  · decide
  · decide
  · decide
  · decide
  · intro hmem
    simp only [List.mem_cons, List.not_mem_nil, or_false] at hmem
    rcases hmem with h | h | h | h | h | h
    · exact absurd h (by decide)
    · exact absurd h (by decide)
    · exact absurd h (by decide)
    · exact absurd h (by decide)
    · exact (hexCh_ne _) h.symm
    · exact (hexCh_ne _) h.symm
  · rename_i h1 h2 h3 h4 h5 h6
    simp only [List.mem_singleton]
    intro h
    exact h3 h.symm

theorem strChars_noNL (s : String) : '\n' ∉ strChars s := by
  unfold strChars
  intro hm
  rcases List.mem_cons.mp hm with h | hm
  · exact absurd h (by decide)
  rcases List.mem_append.mp hm with hm | h
  · obtain ⟨a, _, ha⟩ := List.mem_flatMap.mp hm
    exact escapeChar_noNL a ha
  · exact absurd (List.mem_singleton.mp h) (by decide)

theorem joinComma_noNL (ls : List (List Char))
    (h : ∀ x ∈ ls, '\n' ∉ x) : '\n' ∉ joinComma ls := by
  induction ls with
  | nil => simp [joinComma]
  | cons x xs ih =>
      cases xs with
      | nil => simpa [joinComma] using h x (by simp)
      | cons y ys =>
          simp only [joinComma, List.mem_append, List.mem_cons]
          push_neg
          refine ⟨h x (by simp), by decide, by decide,
            ih (fun z hz => h z (List.mem_cons_of_mem x hz))⟩

theorem dumpsChars_noNL_aux :
    ∀ (n : Nat) (j : Json), sizeOf j ≤ n → '\n' ∉ dumpsChars j := by
  intro n
  induction n with
  | zero =>
      intro j h
      exfalso
      cases j <;> simp_arith at h
  | succ n ih =>
      intro j hsj
      cases j with
      | null => rw [dumpsChars]; decide
      | bool b => cases b <;> (rw [dumpsChars]; decide)
      | num q => rw [dumpsChars]; exact numRepr_noNL q
      | str s => rw [dumpsChars]; exact strChars_noNL s
      | arr elems =>
          rw [dumpsChars]
          intro hm
          rcases List.mem_cons.mp hm with h | hm
          · exact absurd h (by decide)
          rcases List.mem_append.mp hm with hm | h
          · refine joinComma_noNL _ (fun x hx => ?_) hm
            simp only [List.mem_map] at hx
            obtain ⟨⟨e, he⟩, _, rfl⟩ := hx
            have hsz := List.sizeOf_lt_of_mem he
            refine ih e ?_
            simp only [Json.arr.sizeOf_spec] at hsj
            omega
          · exact absurd (List.mem_singleton.mp h) (by decide)
      | obj kvs =>
          rw [dumpsChars]
          intro hm
          rcases List.mem_cons.mp hm with h | hm
          · exact absurd h (by decide)
          rcases List.mem_append.mp hm with hm | h
          · refine joinComma_noNL _ (fun x hx => ?_) hm
            simp only [List.mem_map] at hx
            obtain ⟨⟨⟨ky, v⟩, he⟩, _, rfl⟩ := hx
            intro hxm
            rcases List.mem_append.mp hxm with h1 | h2
            · exact strChars_noNL ky h1
            rcases List.mem_cons.mp h2 with h3 | h4
            · exact absurd h3 (by decide)
            rcases List.mem_cons.mp h4 with h5 | h6
            · exact absurd h5 (by decide)
            have hsz := List.sizeOf_lt_of_mem he
            simp only [Json.obj.sizeOf_spec] at hsj
            simp only [Prod.mk.sizeOf_spec] at hsz
            exact ih v (by omega) h6
          · exact absurd (List.mem_singleton.mp h) (by decide)

theorem dumpsChars_noNL (j : Json) : '\n' ∉ dumpsChars j :=
  dumpsChars_noNL_aux (sizeOf j) j le_rfl

end NewlineFree

section FacadeLemmas

theorem recall_eq_sorted_steps (query category : Option String)
    (min_priority : ℚ) (snapshot : List HypnotizedFact) :
    Hypnotizer.recall query category min_priority snapshot =
      stableSort priorityDescKeep
        (stepQuery query (stepMinPriority min_priority
          (stepCategory category snapshot))) := by
  cases category <;> cases query <;> rfl

theorem mem_list_categories (snapshot : List HypnotizedFact) (s : String) :
    s ∈ Hypnotizer.list_categories snapshot ↔
      ∃ f ∈ snapshot, f.category = some s := by
  unfold Hypnotizer.list_categories
  rw [(stableSort_perm _ _).mem_iff, List.mem_dedup, List.mem_filterMap]

theorem list_categories_nodup (snapshot : List HypnotizedFact) :
    (Hypnotizer.list_categories snapshot).Nodup :=
  (stableSort_perm _ _).symm.nodup (List.nodup_dedup _)

theorem list_categories_sorted (snapshot : List HypnotizedFact) :
    List.Pairwise (fun a b : String => a < b)
      (Hypnotizer.list_categories snapshot) := by
  have hle : List.Pairwise (fun a b : String => a ≤ b)
      (Hypnotizer.list_categories snapshot) := by
    refine stableSort_pairwise _ _ ?_ ?_ ?_ _
    · intro a b hb
      exact le_of_lt (of_decide_eq_true hb)
    · intro a b hb
      exact le_of_not_lt (of_decide_eq_false hb)
    · intro a b c hab hbc
      exact le_trans hab hbc
  have hnd := list_categories_nodup snapshot
  exact (hle.and hnd).imp (fun h => lt_of_le_of_ne h.1 h.2)

end FacadeLemmas

/-- C1.  Evidence for the divergence between the claim and the code.  The
first conjunct shows the handled corruption cases behave as claimed: a
whitespace line, an undecodable line and a decoded object missing a
required field are silently skipped and exactly the valid records are
returned.  The second conjunct is the failing input: a line holding valid
JSON that is not an object (here the number 5) makes from_dict raise
TypeError, which read_all does not catch, so the whole read fails instead
of skipping the line and returning the one valid record. -/
theorem read_all_skips_bad_lines_but_raises_on_nonobject :
    JSONLMemoryStore.read_all "T"
        [Line.invalid, Line.blank,
         Line.json (Json.obj [("fact", Json.str "x")]),
         Line.json sampleDict] = Except.ok [sampleRec]
  ∧ JSONLMemoryStore.read_all "T"
        [Line.json (Json.num 5), Line.json sampleDict] =
      Except.error PyErr.typeError :=
  ⟨rfl, rfl⟩

/-- C2.  For every string whose lowercasing is a tier name, inject returns
a record carrying the fixed mapped priority (critical 0.99, high 0.95,
medium 0.85, low 0.75); for every other string the configured default
priority is used, without error. -/
theorem inject_tier_priority (d : ℚ) (i ca fa : String)
    (cat : Option String) (md : Option (List (String × Json)))
    (s : String) :
    (pyLower s = "critical" →
      (Hypnotizer.inject d i ca fa (Sum.inl s) cat md).priority = 99/100)
  ∧ (pyLower s = "high" →
      (Hypnotizer.inject d i ca fa (Sum.inl s) cat md).priority = 95/100)
  ∧ (pyLower s = "medium" →
      (Hypnotizer.inject d i ca fa (Sum.inl s) cat md).priority = 85/100)
  ∧ (pyLower s = "low" →
      (Hypnotizer.inject d i ca fa (Sum.inl s) cat md).priority = 75/100)
  ∧ (pyLower s ≠ "critical" → pyLower s ≠ "high" → pyLower s ≠ "medium" →
      pyLower s ≠ "low" →
      (Hypnotizer.inject d i ca fa (Sum.inl s) cat md).priority = d) := by
  refine ⟨fun h => ?_, fun h => ?_, fun h => ?_, fun h => ?_,
    fun h1 h2 h3 h4 => ?_⟩
  · show (PRIORITY_LEVELS.lookup (pyLower s)).getD d = 99/100
    rw [h]; rfl
  · show (PRIORITY_LEVELS.lookup (pyLower s)).getD d = 95/100
    rw [h]; rfl
  · show (PRIORITY_LEVELS.lookup (pyLower s)).getD d = 85/100
    rw [h]; rfl
  · show (PRIORITY_LEVELS.lookup (pyLower s)).getD d = 75/100
    rw [h]; rfl
  · show (PRIORITY_LEVELS.lookup (pyLower s)).getD d = d
    have b1 : (pyLower s == "critical") = false := beq_eq_false_iff_ne.mpr h1
    have b2 : (pyLower s == "high") = false := beq_eq_false_iff_ne.mpr h2
    have b3 : (pyLower s == "medium") = false := beq_eq_false_iff_ne.mpr h3
    have b4 : (pyLower s == "low") = false := beq_eq_false_iff_ne.mpr h4
    simp [PRIORITY_LEVELS, List.lookup, b1, b2, b3, b4]

/-- C2 witness: a mixed-case tier name maps to 0.99 and an unknown tier
name falls back to the configured default 1/2. -/
theorem inject_tier_priority_witness :
    (Hypnotizer.inject (1/2) "i" "t" "f" (Sum.inl "CrItIcAl") none
        none).priority = 99/100
  ∧ (Hypnotizer.inject (1/2) "i" "t" "f" (Sum.inl "unknown") none
        none).priority = 1/2 :=
  ⟨(inject_tier_priority (1/2) "i" "t" "f" none none "CrItIcAl").1
      (by decide),
    (inject_tier_priority (1/2) "i" "t" "f" none none "unknown").2.2.2.2
      (by decide) (by decide) (by decide) (by decide)⟩

/-- C3.  For every numeric priority argument x, the record inject returns
has priority max(0.0, min(1.0, x)). -/
theorem inject_numeric_clamp (d x : ℚ) (i ca fa : String)
    (cat : Option String) (md : Option (List (String × Json))) :
    (Hypnotizer.inject d i ca fa (Sum.inr x) cat md).priority =
      max 0 (min 1 x) := rfl

/-- C4.  Writing any sequence of records through the backend's write and
then reading back returns exactly as many records as were written, in
insertion order, each carrying the identical six field values (spelled out
by the last conjunct of the embedding toFactJ into the runtime record
shape). -/
theorem write_read_all_roundtrip (now : String)
    (facts : List HypnotizedFact) :
    JSONLMemoryStore.read_all now
        (facts.foldl JSONLMemoryStore.write []) =
      Except.ok (facts.map HypnotizedFact.toFactJ)
  ∧ (facts.map HypnotizedFact.toFactJ).length = facts.length
  ∧ ∀ f : HypnotizedFact, f.toFactJ =
      ⟨Json.str f.id, Json.str f.fact, Json.num f.priority,
        jsonOfCat f.category, Json.obj f.metadata,
        Json.str f.created_at⟩ := by
  refine ⟨?_, by simp, fun f => rfl⟩
  rw [foldl_write]
  simpa using read_all_records now facts

/-- C5.  Over any readable stored state: when no stored record has the
given id, delete returns false and leaves the file untouched; when some
record has the id, delete returns true, the surviving records are exactly
the original ones with the target filtered out (hence in their original
relative order), a subsequent read_all returns exactly them, and none of
them carries the target id. -/
theorem delete_found_not_found (now : String) (file : List Line)
    (facts : List HypnotizedFactJ) (target : String)
    (h : JSONLMemoryStore.read_all now file = Except.ok facts) :
    ((∀ f ∈ facts, jsonEqStr f.id target = false) →
        JSONLMemoryStore.delete now file target = Except.ok (false, file))
  ∧ ((∃ f ∈ facts, jsonEqStr f.id target = true) →
      JSONLMemoryStore.delete now file target =
          Except.ok (true,
            (facts.filter (fun f => !(jsonEqStr f.id target))).map
              (fun f => Line.json f.to_dict))
        ∧ JSONLMemoryStore.read_all now
            ((facts.filter (fun f => !(jsonEqStr f.id target))).map
              (fun f => Line.json f.to_dict)) =
            Except.ok (facts.filter (fun f => !(jsonEqStr f.id target)))
        ∧ ∀ g ∈ facts.filter (fun f => !(jsonEqStr f.id target)),
            jsonEqStr g.id target = false) := by
  constructor
  · intro hall
    have hfe : facts.filter (fun f => !(jsonEqStr f.id target)) = facts :=
      List.filter_eq_self.mpr (fun a ha => by simp [hall a ha])
    unfold JSONLMemoryStore.delete
    rw [h]
    simp [hfe]
  · intro hex
    have hlt : (facts.filter (fun f => !(jsonEqStr f.id target))).length <
        facts.length := by
      obtain ⟨f, hf, hft⟩ := hex
      refine List.length_filter_lt_length_iff_exists.mpr ⟨f, hf, ?_⟩
      simp [hft]
    refine ⟨?_, read_all_recordsJ now _, fun g hg => ?_⟩
    · unfold JSONLMemoryStore.delete
      rw [h]
      simp only []
      rw [if_neg (by omega)]
    · have := (List.mem_filter.mp hg).2
      simpa using this

/-- C5 witness: deleting the only record of a one-record store returns
true and empties it. -/
theorem delete_found_not_found_witness :
    JSONLMemoryStore.delete "T" [Line.json sampleRec.to_dict] "a1" =
      Except.ok (true, []) :=
  ((delete_found_not_found "T" [Line.json sampleRec.to_dict] [sampleRec]
      "a1" rfl).2 ⟨sampleRec, by simp, by decide⟩).1

/-- C6.  recall applies the three filters in the fixed order category
first, then positive min_priority threshold, then case-insensitive query
substring, and returns the filtered snapshot sorted by priority descending
with a stable sort: the result is a permutation of the filtered list,
pairwise descending in priority, and for each priority value the
subsequence carrying that priority is exactly the one the filtering step
produced. -/
theorem recall_filters_then_stable_sort (query category : Option String)
    (min_priority : ℚ) (snapshot : List HypnotizedFact) :
    Hypnotizer.recall query category min_priority snapshot =
        stableSort priorityDescKeep
          (stepQuery query (stepMinPriority min_priority
            (stepCategory category snapshot)))
  ∧ (Hypnotizer.recall query category min_priority snapshot).Perm
      (stepQuery query (stepMinPriority min_priority
        (stepCategory category snapshot)))
  ∧ List.Pairwise (fun a b : HypnotizedFact => b.priority ≤ a.priority)
      (Hypnotizer.recall query category min_priority snapshot)
  ∧ ∀ p : ℚ,
      (Hypnotizer.recall query category min_priority snapshot).filter
          (fun f => decide (f.priority = p)) =
        (stepQuery query (stepMinPriority min_priority
            (stepCategory category snapshot))).filter
          (fun f => decide (f.priority = p)) := by
  have he := recall_eq_sorted_steps query category min_priority snapshot
  refine ⟨he, ?_, ?_, ?_⟩
  · rw [he]; exact stableSort_perm _ _
  · rw [he]
    refine stableSort_pairwise _ _ ?_ ?_ ?_ _
    · intro a b hb
      exact le_of_lt (of_decide_eq_true hb)
    · intro a b hb
      exact le_of_not_lt (of_decide_eq_false hb)
    · intro a b c hab hbc
      exact le_trans hbc hab
  · intro p
    rw [he]
    exact stableSort_filter_key _ (fun f : HypnotizedFact => f.priority)
      (fun a b hb => ne_of_gt (of_decide_eq_true hb)) _ p

/-- C7.  With the configured default priority in the documented range
0.0-1.0, every inject call produces a record whose priority lies in
[0.0, 1.0], whether the priority argument is a string tier name (known or
unknown) or any number. -/
theorem inject_priority_unit_interval (d : ℚ) (h0 : 0 ≤ d) (h1 : d ≤ 1)
    (i ca fa : String) (pr : String ⊕ ℚ) (cat : Option String)
    (md : Option (List (String × Json))) :
    0 ≤ (Hypnotizer.inject d i ca fa pr cat md).priority ∧
      (Hypnotizer.inject d i ca fa pr cat md).priority ≤ 1 := by
  cases pr with
  | inl s =>
      show 0 ≤ ((PRIORITY_LEVELS.lookup (pyLower s)).getD d) ∧
        ((PRIORITY_LEVELS.lookup (pyLower s)).getD d) ≤ 1
      simp only [PRIORITY_LEVELS, List.lookup]
      repeat' split
      all_goals simp_all
      all_goals norm_num
  | inr x =>
      constructor
      · exact le_max_left 0 _
      · exact max_le (by norm_num) (min_le_left 1 x)

/-- C7 witness: with default 0.95 a numeric priority 7 clamps into the
unit interval. -/
theorem inject_priority_unit_interval_witness :
    0 ≤ (Hypnotizer.inject (95/100) "i" "t" "f" (Sum.inr 7) none
        none).priority ∧
      (Hypnotizer.inject (95/100) "i" "t" "f" (Sum.inr 7) none
        none).priority ≤ 1 :=
  inject_priority_unit_interval (95/100) (by norm_num) (by norm_num)
    "i" "t" "f" (Sum.inr 7) none none

/-- C8.  list_categories returns a duplicate-free list, in strictly
ascending lexicographic order, whose members are exactly the strings
occurring as the (non-null) category of some stored record. -/
theorem list_categories_sorted_distinct (snapshot : List HypnotizedFact) :
    (Hypnotizer.list_categories snapshot).Nodup
  ∧ List.Pairwise (fun a b : String => a < b)
      (Hypnotizer.list_categories snapshot)
  ∧ ∀ s : String, s ∈ Hypnotizer.list_categories snapshot ↔
      ∃ f ∈ snapshot, f.category = some s :=
  ⟨list_categories_nodup snapshot, list_categories_sorted snapshot,
    fun s => mem_list_categories snapshot s⟩

/-- C9.  Each write appends exactly one newline-terminated line holding
the serialized record and leaves the previous content as an unchanged
prefix: the new content is the old content followed by the serialized
record and a newline, the appended chunk contains exactly one newline
(its final character), and the stored content strictly grows. -/
theorem write_appends_single_line (content : String)
    (fact : HypnotizedFact) :
    JSONLMemoryStore.writeText content fact =
        content ++ (⟨dumpsChars fact.to_dict⟩ : String) ++ "\n"
  ∧ (dumpsChars fact.to_dict ++ ['\n']).count '\n' = 1
  ∧ (JSONLMemoryStore.writeText content fact).length =
      content.length + (dumpsChars fact.to_dict).length + 1 := by
  refine ⟨rfl, ?_, ?_⟩
  · rw [List.count_append]
    have h0 : (dumpsChars fact.to_dict).count '\n' = 0 :=
      List.count_eq_zero.mpr (dumpsChars_noNL _)
    simp [h0]
  · show (content ++ (⟨dumpsChars fact.to_dict⟩ : String) ++ "\n").length = _
    rw [String.length_append, String.length_append]
    rfl

/-- C10.  The empty string is a present category, distinct from the null
category: a record injected with category "" carries category "",
recall filtering on category "" keeps exactly the records whose category
is "" (in particular not the None-category ones), and list_categories
lists "" exactly when some stored record carries it. -/
theorem empty_category_is_present (snapshot : List HypnotizedFact)
    (d : ℚ) (i ca fa : String) (pr : String ⊕ ℚ)
    (md : Option (List (String × Json))) :
    (Hypnotizer.inject d i ca fa pr (some "") md).category = some ""
  ∧ (Hypnotizer.recall none (some "") 0 snapshot).Perm
      (snapshot.filter (fun f => f.category == some ""))
  ∧ ("" ∈ Hypnotizer.list_categories snapshot ↔
      ∃ f ∈ snapshot, f.category = some "") := by
  refine ⟨rfl, ?_, mem_list_categories snapshot ""⟩
  have he := recall_eq_sorted_steps none (some "") 0 snapshot
  rw [he]
  have hs : stepQuery none (stepMinPriority 0 (stepCategory (some "")
      snapshot)) = snapshot.filter (fun f => f.category == some "") := by
    simp [stepQuery, stepMinPriority, stepCategory]
  rw [hs]
  exact stableSort_perm _ _
